import Mathlib

/-!
Shallow embedding of the audio post-processing pipeline of tune-prism
(src-tauri/src/demucs/mod.rs and src-tauri/src/demucs/analysis.rs).

Modelling conventions:
* `f32`/`f64` samples are modelled as exact rationals (`ℚ`); decimal
  literals of the source (`0.7`, `0.3`, `0.9`, `1e-8`, ...) are modelled by
  the exact rationals they denote.
* `std::f32::consts::PI` is modelled by the exact value of the IEEE-754
  single-precision constant, `13176795 / 4194304`.
* Rust casts `(sample_rate as f32 * c) as usize` (with `c` one of `0.1`,
  `0.01`, `0.001`) truncate toward zero; they are modelled by the natural
  division `sample_rate / (1/c)`.
* In-place mutation of a sample buffer is modelled by a function returning
  the new buffer; a Rust `usize` subtraction overflow followed by an
  out-of-bounds index (a panic) is modelled by `Option.none`.
-/

namespace Demucs

/-- Rust slice `l[a..b]`: the elements of `l` with indices in `[a, b)`. -/
def slice (l : List ℚ) (a b : ℕ) : List ℚ :=
  (l.drop a).take (b - a)

/-- Rust `f64::clamp(self, lo, hi)`: `lo` if `self < lo`, `hi` if `self > hi`,
otherwise `self`. -/
def clampQ (x lo hi : ℚ) : ℚ :=
  if x < lo then lo else if hi < x then hi else x

/-- The exact rational value of the IEEE-754 single-precision constant
`std::f32::consts::PI`. -/
def pi32 : ℚ := 13176795 / 4194304

/- ### Key estimator (analysis.rs, `estimate_key_from_chroma`) -/

/-- The fixed key vocabulary of `estimate_key_from_chroma`. -/
def keys_list : List String :=
  ["C major", "D major", "E major", "F major", "G major", "A major", "B major"]

/-- Embedding of `estimate_key_from_chroma` (analysis.rs 207-237): empty input
returns "C major"; otherwise the label at index `samples.len() % keys.len()`.
The `sample_rate` argument is accepted and unused, as in the source. -/
def estimate_key_from_chroma (samples : List ℚ) (_sample_rate : ℕ) : String :=
  if samples = [] then "C major"
  else keys_list.getD (samples.length % keys_list.length) "C major"

/- ### Mono downmix shared by `detect_bpm` and `detect_key` (analysis.rs) -/

/-- Embedding of the downmix in `detect_bpm` / `detect_key` (analysis.rs 28-36,
184-192): when `nb_channels == 2` the two channels are averaged per sample;
otherwise `track.samples[0]` is used, which panics (`none`) when there are no
channels. -/
def mono_samples (channels : List (List ℚ)) : Option (List ℚ) :=
  if channels.length = 2 then
    some (List.zipWith (fun a b => (a + b) / 2) (channels.getD 0 []) (channels.getD 1 []))
  else
    channels.head?

/- ### Normalization around inference (mod.rs, `split_track` 53-71) -/

/-- Embedding of the standard-deviation floor of `split_track` (mod.rs 59):
`if std_val < 1e-8 { 1e-8 } else { std_val }`. -/
def std_safe (std_val : ℚ) : ℚ :=
  if std_val < 1 / 100000000 then 1 / 100000000 else std_val

/-- Embedding of `input_tensor -= mean_val; input_tensor /= std_safe_val`
(mod.rs 61-62), elementwise over the multichannel buffer. -/
def normalize_buffer (x : List (List ℚ)) (mean std : ℚ) : List (List ℚ) :=
  x.map (fun ch => ch.map (fun v => (v - mean) / std_safe std))

/-- Embedding of `output *= std_safe_val; output += mean_val` (mod.rs 70-71),
elementwise over the multichannel buffer. -/
def denormalize_buffer (y : List (List ℚ)) (mean std : ℚ) : List (List ℚ) :=
  y.map (fun ch => ch.map (fun v => v * std_safe std + mean))

/- ### IIR filter bank (mod.rs 269-308) -/

/-- The per-sample recurrence of `apply_high_pass_filter` (mod.rs 278-284):
state is `(prev_input, prev_output)`, each output is
`alpha * (prev_output + input - prev_input)`. -/
def hp_go (alpha : ℚ) : ℚ → ℚ → List ℚ → List ℚ
  | _, _, [] => []
  | prev_input, prev_output, x :: xs =>
    let y := alpha * (prev_output + x - prev_input)
    y :: hp_go alpha x y xs

/-- Embedding of `apply_high_pass_filter` (mod.rs 270-285):
`rc = 1/(2*PI*cutoff)`, `dt = 1/sample_rate`, `alpha = rc/(rc+dt)`, state
starting at zero. -/
def apply_high_pass_filter (samples : List ℚ) (sample_rate : ℕ) (cutoff : ℚ) : List ℚ :=
  let rc := 1 / (2 * pi32 * cutoff)
  let dt := 1 / (sample_rate : ℚ)
  let alpha := rc / (rc + dt)
  hp_go alpha 0 0 samples

/-- The per-sample recurrence of `apply_low_pass_filter` (mod.rs 293-299):
state is `prev_output`, each output is `prev_output + alpha * (input - prev_output)`. -/
def lp_go (alpha : ℚ) : ℚ → List ℚ → List ℚ
  | _, [] => []
  | prev_output, x :: xs =>
    let y := prev_output + alpha * (x - prev_output)
    y :: lp_go alpha y xs

/-- Embedding of `apply_low_pass_filter` (mod.rs 288-300):
`rc = 1/(2*PI*cutoff)`, `dt = 1/sample_rate`, `alpha = dt/(rc+dt)`, state
starting at zero. -/
def apply_low_pass_filter (samples : List ℚ) (sample_rate : ℕ) (cutoff : ℚ) : List ℚ :=
  let rc := 1 / (2 * pi32 * cutoff)
  let dt := 1 / (sample_rate : ℚ)
  let alpha := dt / (rc + dt)
  lp_go alpha 0 samples

/-- Embedding of `apply_band_pass_filter` (mod.rs 303-308): the high-pass
filter followed by the low-pass filter, in that order. -/
def apply_band_pass_filter (samples : List ℚ) (sample_rate : ℕ) (low_cut high_cut : ℚ) : List ℚ :=
  apply_low_pass_filter (apply_high_pass_filter samples sample_rate low_cut) sample_rate high_cut

/- ### Noise reduction (mod.rs 311-330) -/

/-- Embedding of `apply_noise_reduction` (mod.rs 311-330).
`window_size = (sample_rate as f32 * 0.01) as usize`; the routine returns the
input unchanged when `window_size < 2` or the channel is shorter than
`2*window_size`; otherwise `smoothed[i]` is the mean of
`samples[i-window_size..i+window_size]` for interior `i` (a copy of the input
elsewhere) and every sample is blended as `0.7*original + 0.3*smoothed`.
`smoothed` is computed from the unmodified input, so it is expressed with
`mapIdx`. -/
def apply_noise_reduction (samples : List ℚ) (sample_rate : ℕ) : List ℚ :=
  let window_size := sample_rate / 100
  if window_size < 2 ∨ samples.length < window_size * 2 then samples
  else
    let smoothed := samples.mapIdx (fun i x =>
      if window_size ≤ i ∧ i < samples.length - window_size then
        (slice samples (i - window_size) (i + window_size)).sum / ((window_size * 2 : ℕ) : ℚ)
      else x)
    List.zipWith (fun original smooth => original * (7 / 10) + smooth * (3 / 10)) samples smoothed

/-- Noise reduction as the specification words it, for comparison with
`apply_noise_reduction`: with half-window `w` (10 ms each side), skipped
entirely if the channel is shorter than `2w`; otherwise the output blends
`0.7*original + 0.3*smoothed` elementwise over the interior region
(indices `w ≤ i < len - w`), where `smoothed i` is the centered moving
average over the `2w` surrounding samples; edges are left unfiltered. -/
def noise_reduction_spec (samples : List ℚ) (sample_rate : ℕ) : List ℚ :=
  let w := sample_rate / 100
  if samples.length < w * 2 then samples
  else
    samples.mapIdx (fun i x =>
      if w ≤ i ∧ i < samples.length - w then
        x * (7 / 10) + ((slice samples (i - w) (i + w)).sum / ((w * 2 : ℕ) : ℚ)) * (3 / 10)
      else x)

/- ### Click/pop repair (mod.rs 356-385) -/

/-- One iteration of the interior loop of `remove_clicks_pops` (mod.rs
361-383) on channel `c` at index `i`: when `|c[i]|` exceeds the `0.9`
threshold and is more than three times the mean absolute value of the
`w` samples before or after it, `c[i]` is replaced by
`(prev_avg + next_avg) / 2 * signum(c[i])`. An index `i` with
`|c[i]| > 0.9` has `c[i] ≠ 0`, so `signum` is `1` for positive and `-1`
for negative samples. -/
def click_repair_step (w : ℕ) (c : List ℚ) (i : ℕ) : List ℚ :=
  let current := |c.getD i 0|
  if 9 / 10 < current then
    let prev_avg := ((slice c (i - w) i).map (fun s => |s|)).sum / (w : ℚ)
    let next_avg := ((slice c (i + 1) (i + 1 + w)).map (fun s => |s|)).sum / (w : ℚ)
    if prev_avg * 3 < current ∨ next_avg * 3 < current then
      c.set i ((prev_avg + next_avg) / 2 * (if 0 ≤ c.getD i 0 then 1 else -1))
    else c
  else c

/-- Embedding of the per-channel loop of `remove_clicks_pops` (mod.rs
356-385) with `window_size = (sample_rate as f32 * 0.001) as usize`.
The source iterates `i` over `window_size..(channel.len() - window_size)`
with an unguarded `usize` subtraction: when the channel is shorter than
`window_size` this underflows and the loop immediately indexes out of
bounds, i.e. the function panics; this is modelled by `none`. When
`window_size = 0` every `prev_avg`/`next_avg` is the `f32` division `0.0/0.0
= NaN` and every comparison against `NaN` is false, so no sample is
modified. Otherwise the interior samples are repaired sequentially (each
iteration sees the modifications of the previous ones). -/
def remove_clicks_pops_channel (sample_rate : ℕ) (channel : List ℚ) : Option (List ℚ) :=
  let window_size := sample_rate / 1000
  if channel.length < window_size then none
  else if window_size = 0 then some channel
  else some ((List.range' window_size (channel.length - window_size - window_size)).foldl
    (click_repair_step window_size) channel)

/-- Embedding of `remove_clicks_pops` (mod.rs 356-385) over all channels of a
buffer, processed in order: the first panicking channel aborts the whole call. -/
def remove_clicks_pops : List (List ℚ) → ℕ → Option (List (List ℚ))
  | [], _ => some []
  | channel :: rest, sample_rate =>
    match remove_clicks_pops_channel sample_rate channel with
    | none => none
    | some channel2 =>
      match remove_clicks_pops rest sample_rate with
      | none => none
      | some rest2 => some (channel2 :: rest2)

/- ### Per-stem policy dispatch (mod.rs 217-267) -/

/-- Embedding of `post_process_stem` (mod.rs 217-267): each stem name selects
a fixed per-channel filter policy; unknown names (and "drums") are untouched. -/
def post_process_stem (buffer : List (List ℚ)) (stem_type : String) (sample_rate : ℕ) :
    List (List ℚ) :=
  if stem_type = "other" then
    buffer.map (fun channel =>
      apply_noise_reduction (apply_high_pass_filter channel sample_rate 80) sample_rate)
  else if stem_type = "bass" then
    buffer.map (fun channel => apply_low_pass_filter channel sample_rate 400)
  else if stem_type = "vocals" then
    buffer.map (fun channel => apply_band_pass_filter channel sample_rate 300 3400)
  else if stem_type = "guitar" then
    buffer.map (fun channel => apply_band_pass_filter channel sample_rate 80 8000)
  else if stem_type = "piano" then
    buffer.map (fun channel => apply_band_pass_filter channel sample_rate 80 15000)
  else buffer

/- ### BPM estimator (analysis.rs 57-174) -/

/-- The clamped smoothing window of `estimate_bpm_from_envelope`
(analysis.rs 69-70): `((sample_rate as f64 * 0.1) as usize).max(1).min(samples.len() / 4)`. -/
def bpm_window (samples : List ℚ) (sample_rate : ℕ) : ℕ :=
  min (max (sample_rate / 10) 1) (samples.length / 4)

/-- Embedding of `find_peaks` (analysis.rs 142-174): indices `i` of the
signal, `safe_window ≤ i < len - safe_window`, whose value exceeds
`0.3 * max` and strictly exceeds every value in the `safe_window` samples
immediately before and after. -/
def find_peaks (signal : List ℚ) (window_size : ℕ) : List ℕ :=
  if signal = [] ∨ window_size = 0 then []
  else
    let max_val := signal.foldl max 0
    if max_val ≤ 0 then []
    else
      let threshold := max_val * (3 / 10)
      let safe_window := min (max window_size 1) (signal.length / 4)
      (List.range' safe_window (signal.length - safe_window - safe_window)).filter
        (fun i => decide (threshold < signal.getD i 0 ∧
          (slice signal (i - safe_window) i).all (fun s => decide (s < signal.getD i 0)) ∧
          (slice signal (i + 1) (i + 1 + safe_window)).all (fun s => decide (s < signal.getD i 0))))

/-- The moving-average smoothing loop of `estimate_bpm_from_envelope`
(analysis.rs 78-82): for `i` in `0..=(envelope.len() - window_size)`, the sum
of `envelope[i..i+window_size]` divided by `window_size`. -/
def bpm_smoothed (envelope : List ℚ) (window_size : ℕ) : List ℚ :=
  (List.range (envelope.length - window_size + 1)).map
    (fun i => (slice envelope i (i + window_size)).sum / (window_size : ℚ))

/-- The peak-interval collection of `estimate_bpm_from_envelope`
(analysis.rs 97-103): consecutive differences of the peak indices, kept when
strictly positive. -/
def bpm_intervals (peaks : List ℕ) : List ℚ :=
  ((peaks.zip peaks.tail).map (fun p => ((p.2 - p.1 : ℕ) : ℚ))).filter
    (fun q => decide (0 < q))

/-- Embedding of `estimate_bpm_from_envelope` (analysis.rs 57-139). Every
early return yields the `120.0` fallback; otherwise the final result is
`clamp((sample_rate / (avg_interval * w)) * 60, 60, 200)`. The division
`sum / w` for `w = 0` (which in `f32` is `NaN`) only occurs on a path whose
result is the fallback either way, because `find_peaks` with window `0`
returns no peaks. -/
def estimate_bpm_from_envelope (samples : List ℚ) (sample_rate : ℕ) : ℚ :=
  if samples = [] then 120
  else
    let envelope := samples.map (fun s => |s|)
    let window_size := bpm_window samples sample_rate
    if envelope.length < window_size * 2 then 120
    else
      let smoothed := bpm_smoothed envelope window_size
      if smoothed = [] then 120
      else
        let peaks := find_peaks smoothed (window_size / 4)
        if peaks.length < 2 then 120
        else
          let intervals := bpm_intervals peaks
          if intervals = [] then 120
          else
            let avg_interval := intervals.sum / (intervals.length : ℚ)
            if avg_interval ≤ 0 then 120
            else
              let samples_per_peak := avg_interval * (window_size : ℚ)
              if samples_per_peak ≤ 0 then 120
              else clampQ ((sample_rate : ℚ) / samples_per_peak * 60) 60 200

/- ### Two-way vocal/instrumental split (mod.rs 118-214) -/

/-- A `channels × length` buffer of zeros, as allocated by
`vec![vec![0.0; track.length]; model.config.channels]` (mod.rs 165). -/
def zero_buffer (channels length : ℕ) : List (List ℚ) :=
  List.replicate channels (List.replicate length 0)

/-- Elementwise addition of two equally-shaped buffers, as performed by the
accumulation loop `instrumental_buffer[ch][j] += stem_buffer[ch][j]`
(mod.rs 176-180). -/
def add_buffers (a b : List (List ℚ)) : List (List ℚ) :=
  List.zipWith (List.zipWith (· + ·)) a b

/-- Embedding of the instrumental accumulation of `split_vocal_instrumental`
(mod.rs 164-182): starting from a zero buffer, every model output source whose
name is not "vocals" is added elementwise. `stems` pairs each configured
source name with its model output buffer. -/
def instrumental_buffer (channels length : ℕ) (stems : List (String × List (List ℚ))) :
    List (List ℚ) :=
  stems.foldl (fun acc p => if p.1 = "vocals" then acc else add_buffers acc p.2)
    (zero_buffer channels length)

/-- Embedding of the vocal index selection of `split_vocal_instrumental`
(mod.rs 151-155): the position of the first source named "vocals", or `0`
when none exists. -/
def vocal_index (stems : List (String × List (List ℚ))) : ℕ :=
  (stems.findIdx? (fun p => p.1 == "vocals")).getD 0

/-- Embedding of the vocal stem extraction of `split_vocal_instrumental`
(mod.rs 157-162): the model output buffer at `vocal_index`. -/
def vocal_buffer (stems : List (String × List (List ℚ))) : List (List ℚ) :=
  (stems.getD (vocal_index stems) ("", [])).2

/-- Sample `j` of channel `ch` of a buffer (out-of-range indices read `0`). -/
def get2 (b : List (List ℚ)) (ch j : ℕ) : ℚ :=
  (b.getD ch []).getD j 0

/-- A buffer consisting of `channels` channel lists, each of `length`
samples. -/
def buf_shape (channels length : ℕ) (b : List (List ℚ)) : Prop :=
  b.length = channels ∧ ∀ ch ∈ b, ch.length = length

/- ## Helper lemmas -/

theorem clampQ_bounds (x lo hi : ℚ) (h : lo ≤ hi) :
    lo ≤ clampQ x lo hi ∧ clampQ x lo hi ≤ hi := by
  unfold clampQ
  split_ifs <;> constructor <;> linarith

/- ## C3: BPM estimator range and fallback -/

/-- C3 (amended): the envelope-based BPM estimate always lies in `[60, 200]`,
and the empty input returns exactly `120` through its dedicated branch.
Moreover, because the smoothing window is clamped to at most a quarter of the
input length, every input (the empty one included) has at least `2w` samples,
so the "fewer than `2w` samples" fallback branch can never fire. -/
theorem bpm_range_and_empty_default :
    (∀ (samples : List ℚ) (sample_rate : ℕ),
      60 ≤ estimate_bpm_from_envelope samples sample_rate ∧
        estimate_bpm_from_envelope samples sample_rate ≤ 200) ∧
    (∀ sample_rate : ℕ, estimate_bpm_from_envelope [] sample_rate = 120) ∧
    (∀ (samples : List ℚ) (sample_rate : ℕ),
      bpm_window samples sample_rate * 2 ≤ samples.length) := by
  refine ⟨?_, ?_, ?_⟩
  · intro samples sample_rate
    simp only [estimate_bpm_from_envelope]
    split_ifs
    iterate 7 exact ⟨by norm_num, by norm_num⟩
    exact clampQ_bounds _ 60 200 (by norm_num)
  · intro sample_rate
    simp [estimate_bpm_from_envelope]
  · intro samples sample_rate
    have h1 : bpm_window samples sample_rate ≤ samples.length / 4 :=
      min_le_right _ _
    omega

/-- C3 counterexample: the claim counts the empty input among the inputs with
fewer than `2w` samples, but for the empty input the clamped window `w` is `0`
and `0 < 2 * 0` fails; the `120` result comes from the dedicated empty-input
branch instead. -/
theorem bpm_empty_window_counterexample :
    bpm_window [] 44100 = 0 ∧
    ¬(List.length ([] : List ℚ) < 2 * bpm_window [] 44100) ∧
    estimate_bpm_from_envelope [] 44100 = 120 := by
  refine ⟨by decide, by decide, by simp [estimate_bpm_from_envelope]⟩

/- ## C4: key estimator -/

/-- C4: the key estimator returns "C major" on the empty input; on every
nonempty input it returns the element of the fixed 7-label sequence at index
`sample_count mod 7`, hence always one of the 7 labels, depending only on the
sample count. -/
theorem estimate_key_spec :
    (∀ sample_rate : ℕ, estimate_key_from_chroma [] sample_rate = "C major") ∧
    (∀ (samples : List ℚ) (sample_rate : ℕ), samples ≠ [] →
      estimate_key_from_chroma samples sample_rate
          = keys_list.getD (samples.length % 7) "C major" ∧
        estimate_key_from_chroma samples sample_rate ∈ keys_list) := by
  constructor
  · intro _
    rfl
  · intro samples sample_rate h
    have hlen : keys_list.length = 7 := rfl
    have hmod : samples.length % 7 < keys_list.length := by
      rw [hlen]
      exact Nat.mod_lt _ (by norm_num)
    constructor
    · simp [estimate_key_from_chroma, h, hlen]
    · simp only [estimate_key_from_chroma, if_neg h, hlen]
      rw [List.getD_eq_getElem?_getD, List.getElem?_eq_getElem hmod]
      simp only [Option.getD_some]
      exact List.getElem_mem hmod

/-- Witness for C4 at the concrete one-sample input. -/
theorem estimate_key_spec_witness :
    estimate_key_from_chroma [1] 44100
        = keys_list.getD (List.length [(1 : ℚ)] % 7) "C major" ∧
      estimate_key_from_chroma [1] 44100 ∈ keys_list :=
  estimate_key_spec.2 [1] 44100 (by simp)

/- ## C2: normalization round-trip -/

/-- C2: for every multichannel buffer and every mean, whenever the standard
deviation exceeds the `1e-8` floor, denormalizing the normalized buffer
returns the original buffer exactly. -/
theorem normalize_denormalize_roundtrip (x : List (List ℚ)) (mean std : ℚ)
    (h : 1 / 100000000 < std) :
    denormalize_buffer (normalize_buffer x mean std) mean std = x := by
  have hsafe : std_safe std = std := by
    unfold std_safe
    rw [if_neg (not_lt.mpr (le_of_lt h))]
  have hstd : std ≠ 0 := ne_of_gt (lt_trans (by norm_num) h)
  unfold denormalize_buffer normalize_buffer
  rw [hsafe, List.map_map]
  have hch : ∀ ch : List ℚ,
      ((fun ch : List ℚ => ch.map fun v => v * std + mean) ∘
        fun ch : List ℚ => ch.map fun v => (v - mean) / std) ch = ch := by
    intro ch
    simp only [Function.comp_apply, List.map_map]
    have hv : ∀ v : ℚ, ((fun v => v * std + mean) ∘ fun v => (v - mean) / std) v = v := by
      intro v
      simp only [Function.comp_apply]
      field_simp
    calc ch.map (((fun v => v * std + mean) ∘ fun v => (v - mean) / std))
        = ch.map id := List.map_congr_left (fun v _ => hv v)
      _ = ch := List.map_id ch
  calc x.map ((fun ch : List ℚ => ch.map fun v => v * std + mean) ∘
        fun ch : List ℚ => ch.map fun v => (v - mean) / std)
      = x.map id := List.map_congr_left (fun ch _ => hch ch)
    _ = x := List.map_id x

/-- Witness for C2 at a concrete buffer with standard deviation 2. -/
theorem normalize_denormalize_roundtrip_witness :
    (1 / 100000000 : ℚ) < 2 ∧
      denormalize_buffer (normalize_buffer [[3, 5]] 1 2) 1 2 = [[3, 5]] :=
  ⟨by norm_num, normalize_denormalize_roundtrip [[3, 5]] 1 2 (by norm_num)⟩

/- ## C5: mono downmix -/

/-- C5 counterexample: on a 3-channel track the downmix is not the per-sample
mean across all channels; the code uses the first channel unchanged. Here the
first channel is `[0, 0]` while the mean across the three channels would be
`(0 + 0 + 3) / 3 = 1` per sample. -/
theorem mono_downmix_three_channel_counterexample :
    mono_samples [[0, 0], [0, 0], [3, 3]] = some [0, 0] ∧
    mono_samples [[0, 0], [0, 0], [3, 3]]
      ≠ some [(0 + 0 + 3) / 3, (0 + 0 + 3) / 3] := by
  constructor
  · norm_num [mono_samples]
  · norm_num [mono_samples]

/-- C5 (amended): the downmix averages the channels only when there are
exactly two; any other channel count (one, or three and more) uses the first
channel as-is. -/
theorem mono_downmix_cases (channels : List (List ℚ)) :
    (channels.length = 2 →
      mono_samples channels =
        some (List.zipWith (fun a b => (a + b) / 2)
          (channels.getD 0 []) (channels.getD 1 []))) ∧
    (channels.length ≠ 2 → mono_samples channels = channels.head?) := by
  constructor <;> intro h <;> simp [mono_samples, h]

/-- Witness for C5 at a concrete 2-channel track and a concrete 1-channel
track. -/
theorem mono_downmix_cases_witness :
    mono_samples [[1, 3], [3, 5]] = some [2, 4] ∧ mono_samples [[7]] = some [7] := by
  constructor
  · rw [(mono_downmix_cases [[1, 3], [3, 5]]).1 (by simp)]
    norm_num
  · rw [(mono_downmix_cases [[7]]).2 (by simp)]
    rfl

/- ## C9: zero-channel precondition of the detectors -/

/-- C9: the downmix shared by `detect_bpm` and `detect_key` reads the first
channel unconditionally: with an empty channel list it panics (modelled as
`none`), and with at least one channel it always produces a mono signal. -/
theorem mono_downmix_requires_channel :
    mono_samples [] = none ∧
    ∀ channels : List (List ℚ), channels ≠ [] → (mono_samples channels).isSome := by
  constructor
  · rfl
  · intro channels h
    unfold mono_samples
    split_ifs with h2
    · simp
    · cases channels with
      | nil => exact absurd rfl h
      | cons a t => simp

/-- Witness for C9 at a concrete single-channel track. -/
theorem mono_downmix_requires_channel_witness :
    (mono_samples [[9]]).isSome :=
  mono_downmix_requires_channel.2 [[9]] (by simp)

/- ## C1: totality of the post-processing routines -/

/-- C1: the claim that every post-processing routine is total fails for
`remove_clicks_pops`: at 44100 Hz the 1 ms half-window is 44, and on a channel
of 10 samples the unguarded `usize` subtraction `channel.len() - window_size`
underflows, after which the loop indexes out of bounds — a panic, modelled as
`none`. The filters and the noise reduction do take the documented fallback on
degenerate inputs. -/
theorem remove_clicks_pops_panics_on_short_channel :
    remove_clicks_pops [List.replicate 10 0] 44100 = none ∧
    apply_noise_reduction (List.replicate 10 0) 44100 = List.replicate 10 0 ∧
    apply_high_pass_filter [] 44100 80 = [] ∧
    apply_low_pass_filter [] 44100 400 = [] ∧
    apply_band_pass_filter [] 44100 300 3400 = [] := by
  refine ⟨?_, ?_, rfl, rfl, rfl⟩
  · norm_num [remove_clicks_pops, remove_clicks_pops_channel]
  · norm_num [apply_noise_reduction]

/- ## C7: noise reduction vs its specification -/

/-- C7 counterexample: at sample rate 100 the half-window is 1, so the code
returns the 4-sample channel unchanged (its `window_size < 2` guard fires),
although the channel length 4 is at least `2w = 2`; the claimed blend over the
interior would change sample 1 from `0` to `3/20`. -/
theorem noise_reduction_small_window_counterexample :
    apply_noise_reduction [1, 0, 0, 0] 100 = [1, 0, 0, 0] ∧
    noise_reduction_spec [1, 0, 0, 0] 100 = [1, 3 / 20, 0, 0] ∧
    apply_noise_reduction [1, 0, 0, 0] 100 ≠ noise_reduction_spec [1, 0, 0, 0] 100 := by
  refine ⟨by norm_num [apply_noise_reduction], by norm_num [noise_reduction_spec, slice], ?_⟩
  norm_num [apply_noise_reduction, noise_reduction_spec, slice]

/-- C7 (amended): noise reduction is a strict no-op when the channel is
shorter than `2w`, and also when `w < 2` (a guard the claim omits); when
`w ≥ 2` and the channel has at least `2w` samples it equals the claimed
elementwise blend `0.7*original + 0.3*smoothed` over the interior, edges
unfiltered. -/
theorem noise_reduction_cases (samples : List ℚ) (sample_rate : ℕ) :
    (samples.length < (sample_rate / 100) * 2 →
      apply_noise_reduction samples sample_rate = samples) ∧
    (sample_rate / 100 < 2 → apply_noise_reduction samples sample_rate = samples) ∧
    (2 ≤ sample_rate / 100 → (sample_rate / 100) * 2 ≤ samples.length →
      apply_noise_reduction samples sample_rate = noise_reduction_spec samples sample_rate) := by
  refine ⟨?_, ?_, ?_⟩
  · intro h
    simp only [apply_noise_reduction]
    rw [if_pos (Or.inr h)]
  · intro h
    simp only [apply_noise_reduction]
    rw [if_pos (Or.inl h)]
  · intro h2 hlen
    have hcond : ¬(sample_rate / 100 < 2 ∨ samples.length < (sample_rate / 100) * 2) := by
      push_neg
      constructor <;> omega
    simp only [apply_noise_reduction, noise_reduction_spec]
    rw [if_neg hcond, if_neg (not_lt.mpr hlen)]
    apply List.ext_getElem?
    intro i
    rw [List.getElem?_zipWith', List.getElem?_mapIdx, List.getElem?_mapIdx]
    cases hx : samples[i]? with
    | none => rfl
    | some x =>
      simp only [Option.map_some', Option.some_bind]
      split_ifs with hint
      · rfl
      · congr 1
        ring

/-- Witness for C7: a no-op on a channel shorter than `2w`, a no-op for a
small window, and agreement with the spec blend on a 6-sample channel at
sample rate 200 (`w = 2`). -/
theorem noise_reduction_cases_witness :
    apply_noise_reduction [1, 0, 0, 0] 44100 = [1, 0, 0, 0] ∧
    apply_noise_reduction [1, 0, 0, 0] 100 = [1, 0, 0, 0] ∧
    apply_noise_reduction [4, 0, 4, 0, 4, 0] 200 =
      noise_reduction_spec [4, 0, 4, 0, 4, 0] 200 :=
  ⟨(noise_reduction_cases [1, 0, 0, 0] 44100).1 (by norm_num),
   (noise_reduction_cases [1, 0, 0, 0] 100).2.1 (by norm_num),
   (noise_reduction_cases [4, 0, 4, 0, 4, 0] 200).2.2 (by norm_num) (by norm_num)⟩

/- ## C6: band-pass composition and filter order -/

/-- The single-pole low-pass and high-pass recurrences commute in exact
arithmetic: both are causal linear time-invariant filters, so running the
low-pass over the high-pass output equals running the high-pass over the
low-pass output, for any coefficients and any (related) starting states. The
invariant relates the states of the two compositions; it holds for the
all-zero initial states. -/
theorem lp_hp_go_comm (al be : ℚ) :
    ∀ (xs : List ℚ) (pin a b c d : ℚ),
      (1 - be) * b + al * be * a - al * be * pin = al * d - al * be * c →
      b = d →
      lp_go be b (hp_go al pin a xs) = hp_go al c d (lp_go be c xs) := by
  intro xs
  induction xs with
  | nil =>
    intro pin a b c d hJ hbd
    simp [hp_go, lp_go]
  | cons x rest ih =>
    intro pin a b c d hJ hbd
    simp only [hp_go, lp_go]
    have hhead : b + be * (al * (a + x - pin) - b)
        = al * (d + (c + be * (x - c)) - c) := by
      linear_combination hJ
    congr 1
    exact ih x (al * (a + x - pin)) (b + be * (al * (a + x - pin) - b))
      (c + be * (x - c)) (al * (d + (c + be * (x - c)) - c))
      (by linear_combination (1 - be + al) * hJ - (1 - be) * al * hbd) hhead

/-- C6 counterexample: the claim that some input distinguishes the two filter
orders is false in exact arithmetic — applying the low-pass before the
high-pass yields exactly the band-pass output on every signal, at every sample
rate and cutoff pair. -/
theorem band_pass_order_counterexample :
    ¬ ∃ (samples : List ℚ) (sample_rate : ℕ) (low_cut high_cut : ℚ),
      apply_high_pass_filter (apply_low_pass_filter samples sample_rate high_cut)
          sample_rate low_cut
        ≠ apply_band_pass_filter samples sample_rate low_cut high_cut := by
  rintro ⟨samples, sample_rate, low_cut, high_cut, h⟩
  apply h
  simp only [apply_band_pass_filter, apply_low_pass_filter, apply_high_pass_filter]
  exact (lp_hp_go_comm _ _ samples 0 0 0 0 0 (by ring) rfl).symm

/-- C6 (amended): the band-pass filter is the high-pass filter followed by the
low-pass filter, in that order; however, in exact arithmetic the order cannot
matter — the reverse order produces the same output on every signal, so any
observed order sensitivity is purely a floating-point rounding effect. -/
theorem band_pass_composition (samples : List ℚ) (sample_rate : ℕ)
    (low_cut high_cut : ℚ) :
    apply_band_pass_filter samples sample_rate low_cut high_cut =
      apply_low_pass_filter (apply_high_pass_filter samples sample_rate low_cut)
        sample_rate high_cut ∧
    apply_high_pass_filter (apply_low_pass_filter samples sample_rate high_cut)
        sample_rate low_cut =
      apply_band_pass_filter samples sample_rate low_cut high_cut := by
  constructor
  · rfl
  · simp only [apply_band_pass_filter, apply_low_pass_filter, apply_high_pass_filter]
    exact (lp_hp_go_comm _ _ samples 0 0 0 0 0 (by ring) rfl).symm

/- ## C8 and C10: the vocal/instrumental split -/

theorem getD_zipWith_add (la lb : List ℚ) (h : la.length = lb.length) (j : ℕ) :
    (List.zipWith (· + ·) la lb).getD j 0 = la.getD j 0 + lb.getD j 0 := by
  induction la generalizing lb j with
  | nil =>
    cases lb with
    | nil => simp
    | cons y ys => simp at h
  | cons x xs ih =>
    cases lb with
    | nil => simp at h
    | cons y ys =>
      cases j with
      | zero => simp
      | succ j =>
        simp only [List.zipWith_cons_cons, List.getD_cons_succ]
        exact ih ys (by simpa using h) j

theorem get2_add_buffers :
    ∀ (a b : List (List ℚ)) (L : ℕ), a.length = b.length →
      (∀ la ∈ a, la.length = L) → (∀ lb ∈ b, lb.length = L) →
      ∀ ch j, get2 (add_buffers a b) ch j = get2 a ch j + get2 b ch j := by
  intro a
  induction a with
  | nil =>
    intro b L h _ _ ch j
    cases b with
    | nil => simp [add_buffers, get2]
    | cons y ys => simp at h
  | cons la as ih =>
    intro b L h ha hb ch j
    cases b with
    | nil => simp at h
    | cons lb bs =>
      simp only [add_buffers, List.zipWith_cons_cons]
      cases ch with
      | zero =>
        simp only [get2, List.getD_cons_zero]
        exact getD_zipWith_add la lb
          (by rw [ha la (by simp), hb lb (by simp)]) j
      | succ ch =>
        simp only [get2, List.getD_cons_succ]
        have := ih bs L (by simpa using h)
          (fun x hx => ha x (List.mem_cons_of_mem _ hx))
          (fun x hx => hb x (List.mem_cons_of_mem _ hx)) ch j
        simpa [add_buffers, get2] using this

theorem add_buffers_length (a b : List (List ℚ)) :
    (add_buffers a b).length = min a.length b.length := by
  unfold add_buffers
  exact List.length_zipWith _ _ _

theorem add_buffers_channel_length (a b : List (List ℚ)) (L : ℕ)
    (ha : ∀ la ∈ a, la.length = L) (hb : ∀ lb ∈ b, lb.length = L) :
    ∀ x ∈ add_buffers a b, x.length = L := by
  intro x hx
  rw [add_buffers] at hx
  obtain ⟨i, hi, rfl⟩ := List.mem_iff_getElem.mp hx
  rw [List.getElem_zipWith, List.length_zipWith]
  have h1 := ha _ (List.getElem_mem (List.lt_length_left_of_zipWith hi))
  have h2 := hb _ (List.getElem_mem (List.lt_length_right_of_zipWith hi))
  omega

theorem get2_zero_buffer (C L ch j : ℕ) : get2 (zero_buffer C L) ch j = 0 := by
  unfold get2 zero_buffer
  rw [List.getD_eq_getElem?_getD, List.getD_eq_getElem?_getD, List.getElem?_replicate]
  split_ifs with h
  · rw [Option.getD_some, List.getElem?_replicate]
    split_ifs with h2
    · rfl
    · rfl
  · rfl

theorem instrumental_foldl_get2 :
    ∀ (stems : List (String × List (List ℚ))) (acc : List (List ℚ)) (L : ℕ),
      (∀ la ∈ acc, la.length = L) →
      (∀ p ∈ stems, p.2.length = acc.length ∧ ∀ lb ∈ p.2, lb.length = L) →
      ∀ ch j,
        get2 (stems.foldl
          (fun acc p => if p.1 = "vocals" then acc else add_buffers acc p.2) acc) ch j
          = get2 acc ch j +
            ((stems.filter (fun p => decide (p.1 ≠ "vocals"))).map
              (fun p => get2 p.2 ch j)).sum := by
  intro stems
  induction stems with
  | nil =>
    intro acc L _ _ ch j
    simp
  | cons p rest ih =>
    intro acc L hacc hstems ch j
    by_cases hv : p.1 = "vocals"
    · have hfilter : ¬(decide (p.1 ≠ "vocals") = true) := by simp [hv]
      rw [List.foldl_cons, if_pos hv,
        List.filter_cons_of_neg (p := fun q : String × List (List ℚ) => decide (q.1 ≠ "vocals"))
          (a := p) hfilter]
      exact ih acc L hacc
        (fun q hq => hstems q (List.mem_cons_of_mem _ hq)) ch j
    · have hp := hstems p (List.mem_cons_self _ _)
      have hfilter : decide (p.1 ≠ "vocals") = true := by simp [hv]
      have hlen : (add_buffers acc p.2).length = acc.length := by
        rw [add_buffers_length, hp.1, min_self]
      have hchan : ∀ x ∈ add_buffers acc p.2, x.length = L :=
        add_buffers_channel_length acc p.2 L hacc hp.2
      rw [List.foldl_cons, if_neg hv,
        List.filter_cons_of_pos (p := fun q : String × List (List ℚ) => decide (q.1 ≠ "vocals"))
          (a := p) hfilter]
      simp only [List.map_cons, List.sum_cons]
      rw [ih (add_buffers acc p.2) L hchan
        (fun q hq => by
          have := hstems q (List.mem_cons_of_mem _ hq)
          exact ⟨by rw [hlen]; exact this.1, this.2⟩) ch j]
      rw [get2_add_buffers acc p.2 L hp.1.symm hacc hp.2 ch j]
      ring

/-- C8: in the two-way split, the accumulated instrumental buffer equals, per
channel and per sample, the sum of the model output buffers of all sources not
named "vocals". -/
theorem instrumental_is_sum_of_nonvocal (C L : ℕ)
    (stems : List (String × List (List ℚ)))
    (hstems : ∀ p ∈ stems, buf_shape C L p.2) (ch j : ℕ) :
    get2 (instrumental_buffer C L stems) ch j =
      ((stems.filter (fun p => decide (p.1 ≠ "vocals"))).map
        (fun p => get2 p.2 ch j)).sum := by
  unfold instrumental_buffer
  rw [instrumental_foldl_get2 stems (zero_buffer C L) L
    (fun la hla => by
      rw [List.eq_of_mem_replicate hla]
      exact List.length_replicate _ _)
    (fun p hp => by
      obtain ⟨h1, h2⟩ := hstems p hp
      exact ⟨by rw [h1]; exact (List.length_replicate _ _).symm, h2⟩) ch j]
  rw [get2_zero_buffer, zero_add]

/-- Witness for C8 at a concrete three-source configuration. -/
theorem instrumental_is_sum_of_nonvocal_witness :
    get2 (instrumental_buffer 2 2
      [("drums", [[1, 1], [1, 1]]), ("vocals", [[5, 5], [5, 5]]),
        ("bass", [[2, 2], [2, 2]])]) 0 1 =
      (([("drums", [[1, 1], [1, 1]]), ("vocals", [[5, 5], [5, 5]]),
        ("bass", [[2, 2], [2, 2]])].filter
          (fun p => decide (p.1 ≠ "vocals"))).map (fun p => get2 p.2 0 1)).sum :=
  instrumental_is_sum_of_nonvocal 2 2 _ (by
    intro p hp
    simp only [List.mem_cons, List.not_mem_nil, or_false] at hp
    rcases hp with h | h | h <;> subst h <;> exact ⟨by simp, by intro ch hch; simp_all⟩) 0 1

/-- C10: when no configured source is named "vocals", the vocal index falls
back to 0, the vocal stem is the first source's buffer, and the instrumental
sum still contains every source — the first source's samples included, so the
first source is emitted twice. -/
theorem missing_vocals_duplicates_first_source (C L : ℕ)
    (stems : List (String × List (List ℚ)))
    (hnv : ∀ p ∈ stems, p.1 ≠ "vocals") (hne : stems ≠ [])
    (hstems : ∀ p ∈ stems, buf_shape C L p.2) :
    vocal_index stems = 0 ∧
    vocal_buffer stems = (stems.headD ("", [])).2 ∧
    ∀ ch j, get2 (instrumental_buffer C L stems) ch j =
      get2 (vocal_buffer stems) ch j +
        (stems.tail.map (fun p => get2 p.2 ch j)).sum := by
  have hidx : vocal_index stems = 0 := by
    unfold vocal_index
    rw [List.findIdx?_eq_none_iff.mpr]
    · rfl
    · intro p hp
      simpa using hnv p hp
  have hfilter : stems.filter (fun p => decide (p.1 ≠ "vocals")) = stems :=
    List.filter_eq_self.mpr (fun p hp => by simpa using hnv p hp)
  refine ⟨hidx, ?_, ?_⟩
  · unfold vocal_buffer
    rw [hidx]
    cases stems with
    | nil => exact absurd rfl hne
    | cons p rest => rfl
  · intro ch j
    have hsum := instrumental_foldl_get2 stems (zero_buffer C L) L
      (fun la hla => by
        rw [List.eq_of_mem_replicate hla]
        exact List.length_replicate _ _)
      (fun p hp => by
        obtain ⟨h1, h2⟩ := hstems p hp
        exact ⟨by rw [h1]; exact (List.length_replicate _ _).symm, h2⟩) ch j
    unfold instrumental_buffer
    rw [hsum, get2_zero_buffer, zero_add, hfilter]
    cases stems with
    | nil => exact absurd rfl hne
    | cons p rest =>
      simp only [List.map_cons, List.sum_cons, List.tail_cons]
      congr 1
      unfold vocal_buffer
      rw [hidx]
      rfl

/-- Witness for C10 at a concrete two-source configuration with no "vocals"
source. -/
theorem missing_vocals_duplicates_first_source_witness :
    vocal_index [("drums", [[1]]), ("bass", [[2]])] = 0 ∧
    vocal_buffer [("drums", [[1]]), ("bass", [[2]])] =
      (([("drums", [[1]]), ("bass", [[2]])].headD ("", [])).2) ∧
    ∀ ch j, get2 (instrumental_buffer 1 1 [("drums", [[1]]), ("bass", [[2]])]) ch j =
      get2 (vocal_buffer [("drums", [[1]]), ("bass", [[2]])]) ch j +
        ([("drums", [[1]]), ("bass", [[2]])].tail.map (fun p => get2 p.2 ch j)).sum :=
  missing_vocals_duplicates_first_source 1 1 _
    (by
      intro p hp
      simp only [List.mem_cons, List.not_mem_nil, or_false] at hp
      rcases hp with h | h <;> subst h <;> simp)
    (by simp)
    (by
      intro p hp
      simp only [List.mem_cons, List.not_mem_nil, or_false] at hp
      rcases hp with h | h <;> subst h <;> exact ⟨by simp, by intro ch hch; simp_all⟩)

end Demucs
